import Mathlib

/-!
Shallow embedding of the Skill-to-Role Recommendation Engine
(`backend/rag_engine.py`, class `RAGEngine`).

Modelling conventions:
* Python floats are modelled as rationals (ℚ); Python's `round(x, n)`
  (round-half-to-even) is `bround (x * 10^n) / 10^n`; Python's `int(x)`
  truncation toward zero is `pyInt`.
* The vector index (`role_embeddings` table) is modelled as a list of rows;
  the SQL `ORDER BY embedding <=> q LIMIT k` nearest-neighbour query is
  modelled by handing `match_skills` the row list in the order the index
  returns it (ascending cosine distance, stated as a `Pairwise` hypothesis)
  together with the `LIMIT` as `List.take`.
* The embedding model `SentenceTransformer.encode` is an arbitrary function
  parameter `encode : String → List ℚ`; nothing proved here depends on it.
* Python `dict`/`set` values are association lists / deduplicated lists;
  Python exceptions are `Except String`.
-/

/-- Python's `str.lower` (ASCII; all strings in scope are ASCII). -/
def pyLower (s : String) : String := String.mk (s.data.map Char.toLower)

/-- Python's `str.strip` with no argument: drop leading and trailing whitespace. -/
def pyStrip (s : String) : String :=
  String.mk (((s.data.dropWhile Char.isWhitespace).reverse.dropWhile
    Char.isWhitespace).reverse)

/-- Python's `s.split('→')` (the delimiter is the single character `'→'`). -/
def pySplitArrow (s : String) : List String := (s.data.splitOn '→').map String.mk

/-- Python's `'→' in s`. -/
def pyContainsArrow (s : String) : Bool := s.data.contains '→'

/-- Python's truthiness test of a string: non-empty. -/
def pyIsEmpty (s : String) : Bool := s.data.isEmpty

/-- Python's `round` to an integer: round half to even (banker's rounding). -/
def bround (q : ℚ) : ℤ :=
  if q - ⌊q⌋ < 1/2 then ⌊q⌋
  else if (1 : ℚ)/2 < q - ⌊q⌋ then ⌊q⌋ + 1
  else if ⌊q⌋ % 2 = 0 then ⌊q⌋ else ⌊q⌋ + 1

/-- Python's `int()` applied to a float: truncation toward zero. -/
def pyInt (q : ℚ) : ℤ :=
  if 0 ≤ q then ⌊q⌋ else -⌊-q⌋

/-- Python's `round(x, 2)`. -/
def roundTo2 (x : ℚ) : ℚ := (bround (x * 100) : ℚ) / 100

/-- A role record of the knowledge base (`knowledge_base.json`, `roles` entry). -/
structure Role where
  role_name : String
  category : String
  role_summary : String
  experience_level : String
  core_skills : List String
  advanced_skills : List String
  tools_and_technologies : List String
  responsibilities : List String
  career_progression : String
  salary_band_india : String
deriving Repr, DecidableEq

/-- `RAGEngine._get_role_details`: first role whose `role_name` equals `name` exactly. -/
def getRoleDetails (roles : List Role) (name : String) : Option Role :=
  roles.find? (fun r => r.role_name == name)

/-- The normalization `s.lower().strip()` used by `_calculate_skill_overlap`. -/
def normSkill (s : String) : String := pyStrip (pyLower s)

/-- Result of `RAGEngine._calculate_skill_overlap`. -/
structure SkillOverlap where
  matching_skills : List String
  missing_skills : List String
deriving Repr, DecidableEq

/-- `RAGEngine._calculate_skill_overlap`: lowercase/strip both sides, take the
union of the role's three tiers as a set, intersect/subtract the candidate set,
cap `missing_skills` at 10.  Python's `set` is modelled as a deduplicated list;
its unspecified iteration order is fixed here to the order `List.dedup` yields. -/
def calculateSkillOverlap (candidate_skills : List String) (role : Role) : SkillOverlap :=
  let candidate_skills_lower := candidate_skills.map normSkill
  let role_core := role.core_skills.map normSkill
  let role_advanced := role.advanced_skills.map normSkill
  let role_tools := role.tools_and_technologies.map normSkill
  let all_role_skills := (role_core ++ role_advanced ++ role_tools).dedup
  let matching := all_role_skills.filter (fun s => candidate_skills_lower.contains s)
  let missing := all_role_skills.filter (fun s => ¬ candidate_skills_lower.contains s)
  ⟨matching, missing.take 10⟩

/-- `RAGEngine._estimate_learning_time`, the weeks total:
`(len(core_gaps) * 2) + len(advanced_gaps) + (len(tool_gaps) * 0.4)`. -/
def estimateWeeks (c a t : ℕ) : ℚ := (c : ℚ) * 2 + (a : ℚ) + (t : ℚ) * (2/5)

/-- Renders the float `round(weeks/4, 1)` the way Python's f-string prints it,
given `n = bround ((weeks/4) * 10)` (one decimal digit, `n ≥ 0`). -/
def formatMonths (n : ℤ) : String := toString (n / 10) ++ "." ++ toString (n % 10)

/-- `RAGEngine._estimate_learning_time`. -/
def estimateLearningTime (core_gaps advanced_gaps tool_gaps : List String) : String :=
  let weeks := estimateWeeks core_gaps.length advanced_gaps.length tool_gaps.length
  if weeks < 4 then
    toString (pyInt weeks) ++ " weeks"
  else
    formatMonths (bround (weeks / 4 * 10)) ++ " months"

/-- The duration, in weeks, denoted by the string `_estimate_learning_time`
renders for a weeks total `w`: the `"{int(w)} weeks"` branch denotes `int(w)`
weeks and the `"{round(w/4, 1)} months"` branch denotes `4 * round(w/4, 1)`
weeks (the function divides by 4 to convert weeks to months). -/
def durationOfWeeks (w : ℚ) : ℚ :=
  if w < 4 then (pyInt w : ℚ)
  else (bround (w / 4 * 10) : ℚ) / 10 * 4

/-- The duration denoted by `estimateLearningTime`'s rendered string, in weeks,
as a function of the three gap-bucket sizes. -/
def estimateDuration (c a t : ℕ) : ℚ :=
  durationOfWeeks (estimateWeeks c a t)

/-- The success payload of `RAGEngine.suggest_upskilling` (the returned dict). -/
structure UpskillPlan where
  target_role : String
  current_skill_count : ℕ
  matching_skills : List String
  core_gaps : List String
  advanced_gaps : List String
  tool_gaps : List String
  priority_learning : List String
  estimated_learning_time : String
deriving Repr, DecidableEq

/-- `RAGEngine.suggest_upskilling`: resolve the role, compute the overlap, then
partition the role's original-casing tiers by membership of their lowercased
form in the (lowercased) capped missing list. -/
def suggestUpskilling (roles : List Role) (current_skills : List String)
    (target_role : String) : Except String UpskillPlan :=
  match getRoleDetails roles target_role with
  | none => .error ("Role \"" ++ target_role ++ "\" not found in knowledge base")
  | some role_details =>
    let overlap := calculateSkillOverlap current_skills role_details
    let missing_lower := overlap.missing_skills.map pyLower
    let core_gaps := role_details.core_skills.filter
      (fun s => missing_lower.contains (pyLower s))
    let advanced_gaps := role_details.advanced_skills.filter
      (fun s => missing_lower.contains (pyLower s))
    let tool_gaps := role_details.tools_and_technologies.filter
      (fun s => missing_lower.contains (pyLower s))
    .ok ⟨target_role, current_skills.length, overlap.matching_skills,
      core_gaps, advanced_gaps, tool_gaps, core_gaps.take 5,
      estimateLearningTime core_gaps advanced_gaps tool_gaps⟩

/-- A row of the `role_embeddings` table as returned by the nearest-neighbour
query, carrying its cosine distance `embedding <=> query` to the query vector. -/
structure EmbRow where
  role_name : String
  category : String
  distance : ℚ
deriving Repr, DecidableEq

/-- One entry of `RAGEngine.match_skills`' result list. -/
structure MatchResult where
  role_name : String
  category : String
  match_score : ℚ
deriving Repr, DecidableEq

/-- The per-row conversion in `match_skills`:
`match_percentage = round(similarity_score * 100, 2)` with
`similarity_score = 1 - distance`, passed through without clamping. -/
def rowToMatch (r : EmbRow) : MatchResult :=
  ⟨r.role_name, r.category, roundTo2 ((1 - r.distance) * 100)⟩

/-- `RAGEngine.match_skills`.  `queryRows` is the full index in the order the
`ORDER BY embedding <=> q` query returns it (ascending distance); the SQL
`LIMIT top_k` is `List.take`.  The empty-skills guard precedes the embedding
call and the query, so for `[]` the result ignores the index entirely. -/
def matchSkills (queryRows : List EmbRow) (candidate_skills : List String)
    (top_k : ℕ) : List MatchResult :=
  if candidate_skills.isEmpty then []
  else (queryRows.take top_k).map rowToMatch

/-- `RAGEngine.match_skills` with its `try/except` boundary made explicit: the
index round trip may fail (`Except.error`), and the `except Exception` handler
turns any such failure into the plain result `[]` (never re-raised). -/
def matchSkillsExc (queryResult : Except String (List EmbRow))
    (candidate_skills : List String) (top_k : ℕ) : Except String (List MatchResult) :=
  if candidate_skills.isEmpty then .ok []
  else
    match queryResult with
    | .error _ => .ok []
    | .ok rows => .ok ((rows.take top_k).map rowToMatch)

/-- The progression-parsing block of `RAGEngine.get_career_progression`:
split on `'→'` when present, strip each part, drop empty parts; otherwise a
non-empty field is itself the single next role. -/
def parseProgression (progression : String) : List String :=
  if pyContainsArrow progression then
    ((pySplitArrow progression).map pyStrip).filter (fun p => ¬ pyIsEmpty p)
  else if ¬ pyIsEmpty progression then [progression]
  else []

/-- One entry of `next_steps` in `RAGEngine.get_career_progression`. -/
structure ProgressionStep where
  role_name : String
  skills_needed : List String
  experience_level : String
  salary_band : String
deriving Repr, DecidableEq

/-- The success payload of `RAGEngine.get_career_progression`. -/
structure ProgressionPlan where
  current_role : String
  progression_path : String
  next_steps : List ProgressionStep
deriving Repr, DecidableEq

/-- `RAGEngine.get_career_progression`: resolve the current role (falling back
to a `top_k = 1` skill match), parse its `career_progression` field, and keep a
step for each next-role name that resolves in the catalogue, silently dropping
the rest. -/
def getCareerProgression (roles : List Role) (queryRows : List EmbRow)
    (current_role : String) (current_skills : List String) :
    Except String ProgressionPlan :=
  let role_details :=
    match getRoleDetails roles current_role with
    | some r => some r
    | none =>
      match matchSkills queryRows current_skills 1 with
      | [] => none
      | m :: _ => getRoleDetails roles m.role_name
  match role_details with
  | none => .error "Could not determine current role"
  | some role =>
    let progression := role.career_progression
    let next_roles := parseProgression progression
    let progression_details := next_roles.filterMap (fun next_role =>
      (getRoleDetails roles next_role).map (fun nrd =>
        ⟨next_role, (calculateSkillOverlap current_skills nrd).missing_skills.take 5,
          nrd.experience_level, nrd.salary_band_india⟩))
    .ok ⟨current_role, progression, progression_details⟩

/-- `RAGEngine._create_role_embedding_text`. -/
def createRoleEmbeddingText (role : Role) : String :=
  let parts := [role.role_name, role.role_summary]
    ++ (if role.core_skills.isEmpty then []
        else ["Core skills: " ++ String.intercalate ", " role.core_skills])
    ++ (if role.advanced_skills.isEmpty then []
        else ["Advanced skills: " ++ String.intercalate ", " role.advanced_skills])
    ++ (if role.tools_and_technologies.isEmpty then []
        else ["Technologies: " ++ String.intercalate ", " role.tools_and_technologies])
    ++ (if role.responsibilities.isEmpty then []
        else ["Responsibilities: " ++ String.intercalate ", " role.responsibilities])
  String.intercalate " | " parts

/-- A stored row of the `role_embeddings` table. -/
structure StoredEmbedding where
  role_name : String
  category : String
  embedding : List ℚ
deriving Repr, DecidableEq

/-- The existence check of `embed_roles`:
`SELECT id FROM role_embeddings WHERE role_name = %s`. -/
def hasRow (store : List StoredEmbedding) (name : String) : Bool :=
  (store.find? (fun row => row.role_name == name)).isSome

/-- The per-role body of `embed_roles`' loop: skip when a row for the exact
`role_name` exists (before any embedding call), otherwise embed and insert.
State is `(store, embedded_count, skipped_count)`. -/
def embedRolesStep (encode : String → List ℚ)
    (acc : List StoredEmbedding × ℕ × ℕ) (role : Role) :
    List StoredEmbedding × ℕ × ℕ :=
  let (store, embedded_count, skipped_count) := acc
  if hasRow store role.role_name then
    (store, embedded_count, skipped_count + 1)
  else
    (store ++ [⟨role.role_name, role.category,
        encode (createRoleEmbeddingText role)⟩],
      embedded_count + 1, skipped_count)

/-- `RAGEngine.embed_roles` (the loop over the catalogue), returning the final
store together with `(embedded_count, skipped_count)`. -/
def embedRoles (encode : String → List ℚ) (roles : List Role)
    (store : List StoredEmbedding) : List StoredEmbedding × ℕ × ℕ :=
  roles.foldl (embedRolesStep encode) (store, 0, 0)

/-! ### Shared lemmas -/

theorem bround_ge_floor (q : ℚ) : ⌊q⌋ ≤ bround q := by
  unfold bround; split_ifs <;> omega

theorem bround_le_floor_add_one (q : ℚ) : bround q ≤ ⌊q⌋ + 1 := by
  unfold bround; split_ifs <;> omega

theorem bround_mono {q r : ℚ} (h : q ≤ r) : bround q ≤ bround r := by
  have hf : ⌊q⌋ ≤ ⌊r⌋ := Int.floor_mono h
  rcases lt_or_eq_of_le hf with hlt | heq
  · calc bround q ≤ ⌊q⌋ + 1 := bround_le_floor_add_one q
      _ ≤ ⌊r⌋ := by omega
      _ ≤ bround r := bround_ge_floor r
  · unfold bround
    rw [← heq]
    have hfr : q - ⌊q⌋ ≤ r - ⌊q⌋ := by linarith
    split_ifs <;> first | omega | (exfalso; linarith)

theorem pyInt_of_nonneg {q : ℚ} (h : 0 ≤ q) : pyInt q = ⌊q⌋ := by
  unfold pyInt; rw [if_pos h]

theorem estimateWeeks_nonneg (c a t : ℕ) : 0 ≤ estimateWeeks c a t := by
  unfold estimateWeeks; positivity

theorem durationOfWeeks_mono {w1 w2 : ℚ} (h0 : 0 ≤ w1) (h : w1 ≤ w2) :
    durationOfWeeks w1 ≤ durationOfWeeks w2 := by
  unfold durationOfWeeks
  split_ifs with h1 h2 h3
  · rw [pyInt_of_nonneg h0, pyInt_of_nonneg (le_trans h0 h)]
    exact_mod_cast Int.floor_mono h
  · rw [pyInt_of_nonneg h0]
    have hle : (⌊w1⌋ : ℚ) ≤ w1 := Int.floor_le w1
    have hfl : ⌊w1⌋ ≤ 3 := by
      have h4 : (⌊w1⌋ : ℚ) < 4 := lt_of_le_of_lt hle h1
      have : ⌊w1⌋ < 4 := by exact_mod_cast h4
      omega
    have h4 : (4 : ℚ) ≤ w2 := not_lt.mp h2
    have h10 : (10 : ℚ) ≤ w2 / 4 * 10 := by linarith
    have hb : (10 : ℤ) ≤ bround (w2 / 4 * 10) := by
      have : (10 : ℤ) ≤ ⌊w2 / 4 * 10⌋ := Int.le_floor.mpr (by exact_mod_cast h10)
      exact le_trans this (bround_ge_floor _)
    have hbq : (10 : ℚ) ≤ (bround (w2 / 4 * 10) : ℚ) := by exact_mod_cast hb
    have : (⌊w1⌋ : ℚ) ≤ 3 := by exact_mod_cast hfl
    linarith
  · exact absurd h3 (not_lt.mpr (le_trans (not_lt.mp h1) h))
  · have hmul : w1 / 4 * 10 ≤ w2 / 4 * 10 := by linarith
    have hb := bround_mono hmul
    have hbq : (bround (w1 / 4 * 10) : ℚ) ≤ (bround (w2 / 4 * 10) : ℚ) := by
      exact_mod_cast hb
    linarith

/-! ### Claims about the learning-time estimator -/

/-- Claim C3: for all gap lists the learning-time estimate uses
`weeks = 2*|core_gaps| + 1*|advanced_gaps| + 0.4*|tool_gaps|`, rendered as
`"{floor(weeks)} weeks"` when `weeks < 4` (Python's `int()` truncation equals
`floor` here because `weeks ≥ 0`) and as `"{round(weeks/4, 1)} months"`
otherwise; in particular sizes 1, 1, 1 give `weeks = 3.4` and `"3 weeks"`. -/
theorem claim_C3_learning_time_formula :
    (∀ core_gaps advanced_gaps tool_gaps : List String,
      estimateWeeks core_gaps.length advanced_gaps.length tool_gaps.length =
        2 * core_gaps.length + 1 * advanced_gaps.length + (2/5) * tool_gaps.length ∧
      estimateLearningTime core_gaps advanced_gaps tool_gaps =
        (if estimateWeeks core_gaps.length advanced_gaps.length tool_gaps.length < 4 then
          toString ⌊estimateWeeks core_gaps.length advanced_gaps.length tool_gaps.length⌋
            ++ " weeks"
        else
          formatMonths (bround
            (estimateWeeks core_gaps.length advanced_gaps.length tool_gaps.length / 4 * 10))
            ++ " months")) ∧
    estimateWeeks 1 1 1 = 17/5 ∧
    estimateLearningTime ["Excel"] ["Statistics"] ["Tableau"] = "3 weeks" := by
  refine ⟨?_, ?_, ?_⟩
  · intro c a t
    refine ⟨by unfold estimateWeeks; ring, ?_⟩
    show (if estimateWeeks c.length a.length t.length < 4 then
        toString (pyInt (estimateWeeks c.length a.length t.length)) ++ " weeks"
      else formatMonths (bround (estimateWeeks c.length a.length t.length / 4 * 10))
        ++ " months") = _
    rw [pyInt_of_nonneg (estimateWeeks_nonneg _ _ _)]
  · unfold estimateWeeks; norm_num
  · have hw : estimateWeeks 1 1 1 = 17/5 := by unfold estimateWeeks; norm_num
    have h4 : estimateWeeks 1 1 1 < 4 := by rw [hw]; norm_num
    have hp : pyInt (estimateWeeks 1 1 1) = 3 := by
      rw [pyInt_of_nonneg (estimateWeeks_nonneg 1 1 1), hw]
      norm_num [Int.floor_eq_iff]
    calc estimateLearningTime ["Excel"] ["Statistics"] ["Tableau"]
        = (if estimateWeeks 1 1 1 < 4 then
            toString (pyInt (estimateWeeks 1 1 1)) ++ " weeks"
          else formatMonths (bround (estimateWeeks 1 1 1 / 4 * 10)) ++ " months") := rfl
      _ = toString (pyInt (estimateWeeks 1 1 1)) ++ " weeks" := by rw [if_pos h4]
      _ = "3 weeks" := by rw [hp]; decide

/-- Claim C7: the learning-time estimate, read as a duration in weeks
(`estimateDuration`, the denotation of `estimateLearningTime`'s rendered
string), is monotonically non-decreasing when any one bucket size increases
while the other two stay fixed, including across the weeks/months boundary. -/
theorem claim_C7_duration_monotone (c a t : ℕ) :
    estimateDuration c a t ≤ estimateDuration (c + 1) a t ∧
    estimateDuration c a t ≤ estimateDuration c (a + 1) t ∧
    estimateDuration c a t ≤ estimateDuration c a (t + 1) := by
  refine ⟨?_, ?_, ?_⟩ <;>
  · apply durationOfWeeks_mono (estimateWeeks_nonneg _ _ _)
    unfold estimateWeeks
    push_cast
    linarith

/-! ### Concrete fixtures used by witnesses and counterexamples -/

/-- The "Data Analyst" role of the spec's worked scenario. -/
def dataAnalystRole : Role :=
  ⟨"Data Analyst", "Analytics", "Analyzes data sets", "Junior",
    ["Python", "SQL", "Excel"], ["Statistics"], ["Tableau"], [],
    "Senior Data Analyst", "6-12 LPA"⟩

/-! ### Claims about the skill-gap analyzer -/

/-- Claim C2 counterexample: with candidate skills `[]` and a role whose
`core_skills` are `["Python", "SQL", "Excel"]` (plus `["Statistics"]` and
`["Tableau"]`), `_calculate_skill_overlap` returns the lowercased forms, and
the entry `"python"` is not one of the role's original-casing tokens. -/
theorem claim_C2_counterexample :
    (calculateSkillOverlap [] dataAnalystRole).missing_skills =
      ["python", "sql", "excel", "statistics", "tableau"] ∧
    "python" ∉ dataAnalystRole.core_skills ++ dataAnalystRole.advanced_skills ++
      dataAnalystRole.tools_and_technologies := by decide

/-- Claim C2 (amended): every entry of the `missing_skills` sequence returned
by `_calculate_skill_overlap` is the normalized (lowercased, stripped) form of
one of the Role's skill tokens, not the original-casing token itself; it is
selected by set difference against the normalized candidate set (the
original-casing filtering happens only later, in `suggest_upskilling`'s gap
buckets). -/
theorem claim_C2_missing_skills_normalized (candidate_skills : List String)
    (role : Role) (s : String)
    (hs : s ∈ (calculateSkillOverlap candidate_skills role).missing_skills) :
    (∃ t ∈ role.core_skills ++ role.advanced_skills ++ role.tools_and_technologies,
      s = normSkill t) ∧ s ∉ candidate_skills.map normSkill := by
  unfold calculateSkillOverlap at hs
  simp only at hs
  have hs' := List.mem_of_mem_take hs
  rw [List.mem_filter] at hs'
  obtain ⟨hmem, hnc⟩ := hs'
  rw [List.mem_dedup] at hmem
  constructor
  · simp only [List.mem_append, List.mem_map] at hmem ⊢
    rcases hmem with (⟨t, ht, rfl⟩ | ⟨t, ht, rfl⟩) | ⟨t, ht, rfl⟩
    · exact ⟨t, Or.inl (Or.inl ht), rfl⟩
    · exact ⟨t, Or.inl (Or.inr ht), rfl⟩
    · exact ⟨t, Or.inr ht, rfl⟩
  · intro hc
    simp only [decide_eq_true_eq] at hnc
    exact hnc (List.elem_eq_true_of_mem hc)

/-- Witness for the amended Claim C2 at a concrete input. -/
theorem claim_C2_witness :
    "python" ∈ (calculateSkillOverlap [] dataAnalystRole).missing_skills ∧
    ((∃ t ∈ dataAnalystRole.core_skills ++ dataAnalystRole.advanced_skills ++
        dataAnalystRole.tools_and_technologies, "python" = normSkill t) ∧
      "python" ∉ ([] : List String).map normSkill) :=
  ⟨by decide, claim_C2_missing_skills_normalized [] dataAnalystRole "python" (by decide)⟩

/-! ### Claims about the matcher's degenerate and failure behaviour -/

/-- Claim C8: for every `top_k`, `match_skills` with an empty candidate skill
list returns `[]` and never signals an error — the guard precedes the
embedding call and the index query, so the result is `[]` whatever the index
holds and even when the index round trip would fail. -/
theorem claim_C8_empty_skills_empty_result (queryRows : List EmbRow)
    (queryResult : Except String (List EmbRow)) (top_k : ℕ) :
    matchSkills queryRows [] top_k = [] ∧
    matchSkillsExc queryResult [] top_k = .ok [] :=
  ⟨rfl, rfl⟩

/-- Claim C9 counterexample: when the index round trip fails (for example a
connectivity error), `match_skills` does not surface a typed failure — the
`except Exception` handler returns the plain empty list. -/
theorem claim_C9_counterexample :
    matchSkillsExc (.error "could not connect to server") ["Python"] 5 =
      .ok [] := rfl

/-- Claim C9 (amended): when the vector index or storage layer fails during a
match, the engine never lets the raw exception propagate past its boundary —
the handler catches every failure — but it does not surface a typed failure
either: it silently returns the empty list (degraded-empty behaviour). -/
theorem claim_C9_failure_swallowed (err : String) (candidate_skills : List String)
    (top_k : ℕ) :
    matchSkillsExc (.error err) candidate_skills top_k = .ok [] := by
  unfold matchSkillsExc
  split_ifs <;> rfl

/-! ### Claim C1: ordering and score conversion of `match_skills` -/

theorem rowToMatch_score_antitone {a b : EmbRow} (h : a.distance ≤ b.distance) :
    (rowToMatch b).match_score ≤ (rowToMatch a).match_score := by
  unfold rowToMatch roundTo2
  have hle : (1 - b.distance) * 100 * 100 ≤ (1 - a.distance) * 100 * 100 := by
    linarith
  have hb := bround_mono hle
  have hbq : ((bround ((1 - b.distance) * 100 * 100)) : ℚ) ≤
      ((bround ((1 - a.distance) * 100 * 100)) : ℚ) := by exact_mod_cast hb
  simp only
  linarith

/-- Claim C1: for a non-empty candidate skill list and `1 ≤ top_k ≤ 20`,
`match_skills` returns exactly the first `top_k` index rows (in the index's
ascending-distance order) converted by `score = round((1 - d) * 100, 2)` with
no clamping, so the result has length at most `top_k` and is ordered by
non-increasing `match_score`. -/
theorem claim_C1_match_skills_ordering (queryRows : List EmbRow)
    (candidate_skills : List String) (top_k : ℕ)
    (hne : candidate_skills ≠ []) (_hk1 : 1 ≤ top_k) (_hk20 : top_k ≤ 20)
    (hsorted : queryRows.Pairwise (fun a b => a.distance ≤ b.distance)) :
    matchSkills queryRows candidate_skills top_k =
      (queryRows.take top_k).map rowToMatch ∧
    (matchSkills queryRows candidate_skills top_k).length ≤ top_k ∧
    (matchSkills queryRows candidate_skills top_k).Pairwise
      (fun a b => b.match_score ≤ a.match_score) := by
  have hemp : candidate_skills.isEmpty = false := by
    cases candidate_skills with
    | nil => exact absurd rfl hne
    | cons x xs => rfl
  have heq : matchSkills queryRows candidate_skills top_k =
      (queryRows.take top_k).map rowToMatch := by
    unfold matchSkills
    simp [hemp]
  refine ⟨heq, ?_, ?_⟩
  · rw [heq, List.length_map, List.length_take]
    exact min_le_left _ _
  · rw [heq, List.pairwise_map]
    exact (List.Pairwise.sublist (List.take_sublist _ _) hsorted).imp
      (fun h => rowToMatch_score_antitone h)

/-- Witness for Claim C1 at a concrete sorted two-row index (the first row's
pathological negative distance also exhibits the unclamped score 300 > 100). -/
theorem claim_C1_witness :
    (["Python", "SQL"] : List String) ≠ [] ∧ 1 ≤ 2 ∧ 2 ≤ 20 ∧
    ([⟨"ML Engineer", "Engineering", -2⟩, ⟨"Data Analyst", "Analytics", 0⟩] :
      List EmbRow).Pairwise (fun a b => a.distance ≤ b.distance) ∧
    (matchSkills [⟨"ML Engineer", "Engineering", -2⟩, ⟨"Data Analyst", "Analytics", 0⟩]
        ["Python", "SQL"] 2 =
      (([⟨"ML Engineer", "Engineering", -2⟩, ⟨"Data Analyst", "Analytics", 0⟩] :
        List EmbRow).take 2).map rowToMatch ∧
    (matchSkills [⟨"ML Engineer", "Engineering", -2⟩, ⟨"Data Analyst", "Analytics", 0⟩]
        ["Python", "SQL"] 2).length ≤ 2 ∧
    (matchSkills [⟨"ML Engineer", "Engineering", -2⟩, ⟨"Data Analyst", "Analytics", 0⟩]
        ["Python", "SQL"] 2).Pairwise (fun a b => b.match_score ≤ a.match_score)) := by
  have hs : ([⟨"ML Engineer", "Engineering", -2⟩, ⟨"Data Analyst", "Analytics", 0⟩] :
      List EmbRow).Pairwise (fun a b => a.distance ≤ b.distance) := by decide
  exact ⟨by decide, by decide, by decide, hs,
    claim_C1_match_skills_ordering _ _ _ (by decide) (by decide) (by decide) hs⟩

/-! ### Claim C5: `suggest_upskilling` failure condition -/

/-- The `missing_skills` list computed by `_calculate_skill_overlap` for an
empty candidate skill list is the whole normalized required-skill universe,
capped at 10 entries, and `matching_skills` is empty. -/
theorem calculateSkillOverlap_empty (role : Role) :
    calculateSkillOverlap [] role =
      ⟨[], ((role.core_skills.map normSkill ++ role.advanced_skills.map normSkill ++
        role.tools_and_technologies.map normSkill).dedup).take 10⟩ := by
  unfold calculateSkillOverlap
  simp

/-- Claim C5: `suggest_upskilling` fails (with the role-not-found error) if and
only if the target role is absent from the catalogue; for a catalogued role it
succeeds even with an empty candidate skill list, in which case no skill
matches and every required skill (normalized) is reported missing, up to the
10-entry cap. -/
theorem claim_C5_role_not_found_iff :
    (∀ (roles : List Role) (skills : List String) (target : String),
      (∃ e, suggestUpskilling roles skills target = .error e) ↔
        getRoleDetails roles target = none) ∧
    (∀ (roles : List Role) (target : String) (role : Role),
      getRoleDetails roles target = some role →
      ∃ plan, suggestUpskilling roles [] target = .ok plan ∧
        plan.matching_skills = [] ∧
        (calculateSkillOverlap [] role).missing_skills =
          ((role.core_skills.map normSkill ++ role.advanced_skills.map normSkill ++
            role.tools_and_technologies.map normSkill).dedup).take 10 ∧
        ((role.core_skills.map normSkill ++ role.advanced_skills.map normSkill ++
            role.tools_and_technologies.map normSkill).dedup.length ≤ 10 →
          ∀ s ∈ (role.core_skills.map normSkill ++ role.advanced_skills.map normSkill ++
            role.tools_and_technologies.map normSkill).dedup,
            s ∈ (calculateSkillOverlap [] role).missing_skills)) := by
  constructor
  · intro roles skills target
    constructor
    · rintro ⟨e, he⟩
      cases h : getRoleDetails roles target with
      | none => rfl
      | some role =>
        unfold suggestUpskilling at he
        rw [h] at he
        simp at he
    · intro h
      refine ⟨"Role \"" ++ target ++ "\" not found in knowledge base", ?_⟩
      unfold suggestUpskilling
      rw [h]
  · intro roles target role h
    cases hr : suggestUpskilling roles [] target with
    | error e =>
      exfalso
      unfold suggestUpskilling at hr
      rw [h] at hr
      exact absurd hr (by simp)
    | ok plan =>
      unfold suggestUpskilling at hr
      rw [h] at hr
      have hplan := Except.ok.inj hr
      refine ⟨plan, rfl, ?_, ?_, ?_⟩
      · rw [← hplan]
        show (calculateSkillOverlap [] role).matching_skills = []
        rw [calculateSkillOverlap_empty]
      · rw [calculateSkillOverlap_empty]
      · intro hlen s hs
        rw [calculateSkillOverlap_empty]
        show s ∈ ((role.core_skills.map normSkill ++ role.advanced_skills.map normSkill ++
          role.tools_and_technologies.map normSkill).dedup).take 10
        rw [List.take_of_length_le hlen]
        exact hs

/-- Witness for Claim C5: the catalogued "Data Analyst" succeeds with empty
skills, and the absent "Nonexistent Role" yields the error. -/
theorem claim_C5_witness :
    getRoleDetails [dataAnalystRole] "Data Analyst" = some dataAnalystRole ∧
    (∃ plan, suggestUpskilling [dataAnalystRole] [] "Data Analyst" = .ok plan ∧
      plan.matching_skills = [] ∧
      (calculateSkillOverlap [] dataAnalystRole).missing_skills =
        ((dataAnalystRole.core_skills.map normSkill ++
          dataAnalystRole.advanced_skills.map normSkill ++
          dataAnalystRole.tools_and_technologies.map normSkill).dedup).take 10 ∧
      ((dataAnalystRole.core_skills.map normSkill ++
          dataAnalystRole.advanced_skills.map normSkill ++
          dataAnalystRole.tools_and_technologies.map normSkill).dedup.length ≤ 10 →
        ∀ s ∈ (dataAnalystRole.core_skills.map normSkill ++
          dataAnalystRole.advanced_skills.map normSkill ++
          dataAnalystRole.tools_and_technologies.map normSkill).dedup,
          s ∈ (calculateSkillOverlap [] dataAnalystRole).missing_skills)) ∧
    getRoleDetails [dataAnalystRole] "Nonexistent Role" = none ∧
    (∃ e, suggestUpskilling [dataAnalystRole] ["Python"] "Nonexistent Role" =
      .error e) := by
  refine ⟨by decide,
    claim_C5_role_not_found_iff.2 [dataAnalystRole] "Data Analyst" dataAnalystRole
      (by decide),
    by decide,
    (claim_C5_role_not_found_iff.1 [dataAnalystRole] ["Python"] "Nonexistent Role").mpr
      (by decide)⟩

/-! ### Claim C6: career-progression parsing and resolution -/

/-- Fixture: a junior role whose progression names three roles. -/
def juniorDevRole : Role :=
  ⟨"Junior Developer", "Engineering", "Builds features", "Entry",
    ["Python"], [], [], [],
    "Junior Developer → Senior Developer → Lead Developer", "4-8 LPA"⟩

/-- Fixture: the only next role of `juniorDevRole` present in the catalogue. -/
def seniorDevRole : Role :=
  ⟨"Senior Developer", "Engineering", "Leads modules", "Senior",
    ["Python", "System Design"], [], [], [], "", "12-20 LPA"⟩

/-- The `next_steps` entries of `get_career_progression` carry exactly the
parsed next-role names that resolve in the catalogue, in order. -/
theorem progressionSteps_names (roles : List Role) (skills : List String)
    (l : List String) :
    (l.filterMap (fun next_role =>
      (getRoleDetails roles next_role).map (fun nrd =>
        (⟨next_role, (calculateSkillOverlap skills nrd).missing_skills.take 5,
          nrd.experience_level, nrd.salary_band_india⟩ : ProgressionStep)))).map
        (fun st => st.role_name) =
      l.filter (fun nr => (getRoleDetails roles nr).isSome) := by
  induction l with
  | nil => rfl
  | cons x xs ih =>
    simp only [List.filterMap_cons, List.filter_cons]
    cases hx : getRoleDetails roles x with
    | none => simpa [hx] using ih
    | some r => simpa [hx] using ih

/-- Claim C6: the career-progression resolver splits `career_progression` on
`'→'` when present, strips each segment and drops empty ones (the spec's
three-role example parses exactly); when the delimiter is absent a non-empty
field is the single next role; and `next_steps` keeps exactly the parsed
next-role names that resolve in the catalogue — unresolvable names are
silently omitted. -/
theorem claim_C6_progression_parsing :
    parseProgression "Junior Developer → Senior Developer → Lead Developer" =
      ["Junior Developer", "Senior Developer", "Lead Developer"] ∧
    (∀ s : String, pyContainsArrow s = false → pyIsEmpty s = false →
      parseProgression s = [s]) ∧
    (∀ s : String, pyContainsArrow s = true →
      parseProgression s =
        ((pySplitArrow s).map pyStrip).filter (fun p => ¬ pyIsEmpty p)) ∧
    (∀ (roles : List Role) (queryRows : List EmbRow) (current_role : String)
        (current_skills : List String) (role : Role),
      getRoleDetails roles current_role = some role →
      ∃ steps, getCareerProgression roles queryRows current_role current_skills =
          .ok ⟨current_role, role.career_progression, steps⟩ ∧
        steps.map (fun st => st.role_name) =
          (parseProgression role.career_progression).filter
            (fun nr => (getRoleDetails roles nr).isSome)) := by
  refine ⟨by decide, ?_, ?_, ?_⟩
  · intro s h1 h2
    simp [parseProgression, h1, h2]
  · intro s h
    simp [parseProgression, h]
  · intro roles queryRows current_role current_skills role h
    cases hres : getCareerProgression roles queryRows current_role current_skills with
    | error e =>
      exfalso
      unfold getCareerProgression at hres
      rw [h] at hres
      simp at hres
    | ok plan =>
      unfold getCareerProgression at hres
      rw [h] at hres
      have hp := Except.ok.inj hres
      refine ⟨plan.next_steps, ?_, ?_⟩
      · rw [← hp]
      · rw [← hp]
        exact progressionSteps_names roles current_skills
          (parseProgression role.career_progression)

/-- Witness for Claim C6: in a catalogue holding only the junior and senior
roles, the three parsed next roles collapse to the two resolvable ones. -/
theorem claim_C6_witness :
    getRoleDetails [juniorDevRole, seniorDevRole] "Junior Developer" =
      some juniorDevRole ∧
    (∃ steps, getCareerProgression [juniorDevRole, seniorDevRole] []
        "Junior Developer" ["Python"] =
        .ok ⟨"Junior Developer", juniorDevRole.career_progression, steps⟩ ∧
      steps.map (fun st => st.role_name) =
        (parseProgression juniorDevRole.career_progression).filter
          (fun nr => (getRoleDetails [juniorDevRole, seniorDevRole] nr).isSome)) :=
  ⟨by decide, claim_C6_progression_parsing.2.2.2 [juniorDevRole, seniorDevRole] []
    "Junior Developer" ["Python"] juniorDevRole (by decide)⟩

/-! ### Claim C10: a skill in several tiers lands in several gap buckets -/

/-- Fixture: a role listing the same skill (case-insensitively) as both a core
skill and an advanced skill. -/
def fullStackRole : Role :=
  ⟨"Full Stack Developer", "Engineering", "Builds web apps", "Mid",
    ["Python"], ["python"], [], [], "", "8-15 LPA"⟩

/-- Fixture: a role listing the same skill (case-insensitively) in all three
tier lists, tools included. -/
def platformEngRole : Role :=
  ⟨"Platform Engineer", "Engineering", "Runs infrastructure", "Senior",
    ["Docker"], ["docker"], ["DOCKER"], [], "", "15-25 LPA"⟩

/-- Claim C10: for the single plan `suggest_upskilling` returns, every
original-casing token of any of the three tier lists whose lowercased form is
among the capped `missing_skills` entries lands in that tier's gap bucket — so
a skill occurring case-insensitively in more than one of `core_skills`,
`advanced_skills` and `tools_and_technologies` (any combination, tools
included) is placed in each corresponding bucket simultaneously.  The two-tier
role shows the estimator counting it once per bucket (2 + 1 = 3 weeks), and
the three-tier role likewise fills all three buckets with the one skill
(2 + 1 + 0.4 = 3.4 → "3 weeks"). -/
theorem claim_C10_multi_tier_buckets :
    (∀ (roles : List Role) (skills : List String) (target : String) (role : Role),
      getRoleDetails roles target = some role →
      ∃ plan, suggestUpskilling roles skills target = .ok plan ∧
        (∀ t ∈ role.core_skills,
          pyLower t ∈ (calculateSkillOverlap skills role).missing_skills.map pyLower →
          t ∈ plan.core_gaps) ∧
        (∀ t ∈ role.advanced_skills,
          pyLower t ∈ (calculateSkillOverlap skills role).missing_skills.map pyLower →
          t ∈ plan.advanced_gaps) ∧
        (∀ t ∈ role.tools_and_technologies,
          pyLower t ∈ (calculateSkillOverlap skills role).missing_skills.map pyLower →
          t ∈ plan.tool_gaps)) ∧
    (∃ plan, suggestUpskilling [fullStackRole] [] "Full Stack Developer" = .ok plan ∧
      plan.core_gaps = ["Python"] ∧ plan.advanced_gaps = ["python"] ∧
      plan.tool_gaps = [] ∧
      plan.estimated_learning_time = "3 weeks" ∧
      plan.estimated_learning_time =
        estimateLearningTime plan.core_gaps plan.advanced_gaps plan.tool_gaps) ∧
    (∃ plan, suggestUpskilling [platformEngRole] [] "Platform Engineer" = .ok plan ∧
      plan.core_gaps = ["Docker"] ∧ plan.advanced_gaps = ["docker"] ∧
      plan.tool_gaps = ["DOCKER"] ∧
      plan.estimated_learning_time = "3 weeks" ∧
      plan.estimated_learning_time =
        estimateLearningTime plan.core_gaps plan.advanced_gaps plan.tool_gaps) := by
  refine ⟨?_, ?_, ?_⟩
  · intro roles skills target role h
    cases hr : suggestUpskilling roles skills target with
    | error e =>
      exfalso
      unfold suggestUpskilling at hr
      rw [h] at hr
      simp at hr
    | ok plan =>
      unfold suggestUpskilling at hr
      rw [h] at hr
      have hp := Except.ok.inj hr
      refine ⟨plan, rfl, ?_, ?_, ?_⟩
      · intro t ht hm
        rw [← hp]
        show t ∈ role.core_skills.filter (fun s =>
          (((calculateSkillOverlap skills role).missing_skills.map pyLower).contains
            (pyLower s)))
        rw [List.mem_filter]
        exact ⟨ht, List.elem_eq_true_of_mem hm⟩
      · intro t ht hm
        rw [← hp]
        show t ∈ role.advanced_skills.filter (fun s =>
          (((calculateSkillOverlap skills role).missing_skills.map pyLower).contains
            (pyLower s)))
        rw [List.mem_filter]
        exact ⟨ht, List.elem_eq_true_of_mem hm⟩
      · intro t ht hm
        rw [← hp]
        show t ∈ role.tools_and_technologies.filter (fun s =>
          (((calculateSkillOverlap skills role).missing_skills.map pyLower).contains
            (pyLower s)))
        rw [List.mem_filter]
        exact ⟨ht, List.elem_eq_true_of_mem hm⟩
  · have hrun : suggestUpskilling [fullStackRole] [] "Full Stack Developer" =
        .ok ⟨"Full Stack Developer", 0, [], ["Python"], ["python"], [], ["Python"],
          estimateLearningTime ["Python"] ["python"] []⟩ := rfl
    have hw : estimateWeeks 1 1 0 = 3 := by unfold estimateWeeks; norm_num
    have h4 : estimateWeeks 1 1 0 < 4 := by rw [hw]; norm_num
    have hp : pyInt (estimateWeeks 1 1 0) = 3 := by
      rw [pyInt_of_nonneg (estimateWeeks_nonneg 1 1 0), hw]
      norm_num
    have hest : estimateLearningTime ["Python"] ["python"] [] = "3 weeks" := by
      calc estimateLearningTime ["Python"] ["python"] []
          = (if estimateWeeks 1 1 0 < 4 then
              toString (pyInt (estimateWeeks 1 1 0)) ++ " weeks"
            else formatMonths (bround (estimateWeeks 1 1 0 / 4 * 10)) ++ " months") := rfl
        _ = toString (pyInt (estimateWeeks 1 1 0)) ++ " weeks" := by rw [if_pos h4]
        _ = "3 weeks" := by rw [hp]; decide
    exact ⟨⟨"Full Stack Developer", 0, [], ["Python"], ["python"], [], ["Python"],
      estimateLearningTime ["Python"] ["python"] []⟩, hrun, rfl, rfl, rfl, hest, rfl⟩
  · have hrun : suggestUpskilling [platformEngRole] [] "Platform Engineer" =
        .ok ⟨"Platform Engineer", 0, [], ["Docker"], ["docker"], ["DOCKER"], ["Docker"],
          estimateLearningTime ["Docker"] ["docker"] ["DOCKER"]⟩ := rfl
    have hw : estimateWeeks 1 1 1 = 17/5 := by unfold estimateWeeks; norm_num
    have h4 : estimateWeeks 1 1 1 < 4 := by rw [hw]; norm_num
    have hp : pyInt (estimateWeeks 1 1 1) = 3 := by
      rw [pyInt_of_nonneg (estimateWeeks_nonneg 1 1 1), hw]
      norm_num [Int.floor_eq_iff]
    have hest : estimateLearningTime ["Docker"] ["docker"] ["DOCKER"] = "3 weeks" := by
      calc estimateLearningTime ["Docker"] ["docker"] ["DOCKER"]
          = (if estimateWeeks 1 1 1 < 4 then
              toString (pyInt (estimateWeeks 1 1 1)) ++ " weeks"
            else formatMonths (bround (estimateWeeks 1 1 1 / 4 * 10)) ++ " months") := rfl
        _ = toString (pyInt (estimateWeeks 1 1 1)) ++ " weeks" := by rw [if_pos h4]
        _ = "3 weeks" := by rw [hp]; decide
    exact ⟨⟨"Platform Engineer", 0, [], ["Docker"], ["docker"], ["DOCKER"], ["Docker"],
      estimateLearningTime ["Docker"] ["docker"] ["DOCKER"]⟩, hrun, rfl, rfl, rfl,
      hest, rfl⟩

/-- Witness for Claim C10's general part at the three-tier fixture role: the
one skill, missing with empty candidate skills, lands in the core, advanced
and tools buckets of the same plan. -/
theorem claim_C10_witness :
    getRoleDetails [platformEngRole] "Platform Engineer" = some platformEngRole ∧
    (∃ plan, suggestUpskilling [platformEngRole] [] "Platform Engineer" = .ok plan ∧
      "Docker" ∈ plan.core_gaps ∧ "docker" ∈ plan.advanced_gaps ∧
      "DOCKER" ∈ plan.tool_gaps) := by
  have happ := claim_C10_multi_tier_buckets.1 [platformEngRole] [] "Platform Engineer"
    platformEngRole (by decide)
  obtain ⟨plan, hrun, hcore, hadv, htool⟩ := happ
  exact ⟨by decide, plan, hrun,
    hcore "Docker" (by decide) (by decide),
    hadv "docker" (by decide) (by decide),
    htool "DOCKER" (by decide) (by decide)⟩

/-! ### Claim C4: re-running the indexer is a no-op -/

/-- The existence check succeeds exactly when some stored row carries the name. -/
theorem hasRow_iff (st : List StoredEmbedding) (n : String) :
    hasRow st n = true ↔ ∃ row ∈ st, row.role_name = n := by
  unfold hasRow
  rw [List.find?_isSome]
  simp

/-- One loop iteration never removes a stored row. -/
theorem embedRolesStep_store_mono (encode : String → List ℚ)
    (acc : List StoredEmbedding × ℕ × ℕ) (role : Role) (n : String)
    (h : hasRow acc.1 n = true) :
    hasRow (embedRolesStep encode acc role).1 n = true := by
  obtain ⟨st, e, k⟩ := acc
  dsimp only [embedRolesStep]
  split_ifs with hc
  · exact h
  · rw [hasRow_iff] at h ⊢
    obtain ⟨row, hm, hn⟩ := h
    exact ⟨row, List.mem_append_left _ hm, hn⟩

/-- The loop never removes a stored row. -/
theorem embedRoles_foldl_store_mono (encode : String → List ℚ) (rs : List Role) :
    ∀ (st : List StoredEmbedding) (e k : ℕ) (n : String), hasRow st n = true →
      hasRow (rs.foldl (embedRolesStep encode) (st, e, k)).1 n = true := by
  induction rs with
  | nil => intro st e k n h; exact h
  | cons x xs ih =>
    intro st e k n h
    rw [List.foldl_cons]
    rcases hstep : embedRolesStep encode (st, e, k) x with ⟨st', e', k'⟩
    have h' : hasRow st' n = true := by
      have hm := embedRolesStep_store_mono encode (st, e, k) x n h
      rw [hstep] at hm
      exact hm
    exact ih st' e' k' n h'

/-- After a run of `embed_roles`, every catalogue role has a stored row. -/
theorem embedRoles_present (encode : String → List ℚ) (rs : List Role) :
    ∀ (st : List StoredEmbedding) (e k : ℕ) (r : Role), r ∈ rs →
      hasRow (rs.foldl (embedRolesStep encode) (st, e, k)).1 r.role_name = true := by
  induction rs with
  | nil => intro st e k r h; exact absurd h (List.not_mem_nil r)
  | cons x xs ih =>
    intro st e k r hmem
    rw [List.foldl_cons]
    rcases hstep : embedRolesStep encode (st, e, k) x with ⟨st', e', k'⟩
    rcases List.mem_cons.mp hmem with rfl | hxs
    · have hx : hasRow st' r.role_name = true := by
        dsimp only [embedRolesStep] at hstep
        split_ifs at hstep with hc
        · cases hstep
          exact hc
        · cases hstep
          rw [hasRow_iff]
          exact ⟨⟨r.role_name, r.category, encode (createRoleEmbeddingText r)⟩,
            List.mem_append_right _ (List.mem_singleton_self _), rfl⟩
      exact embedRoles_foldl_store_mono encode xs st' e' k' r.role_name hx
    · exact ih st' e' k' r hxs

/-- When every catalogue role already has a row, the loop leaves the store and
the embedded count untouched and counts every role as skipped. -/
theorem embedRoles_skip_run (encode : String → List ℚ) (rs : List Role) :
    ∀ (st : List StoredEmbedding) (e k : ℕ),
      (∀ r ∈ rs, hasRow st r.role_name = true) →
      rs.foldl (embedRolesStep encode) (st, e, k) = (st, e, k + rs.length) := by
  induction rs with
  | nil => intro st e k h; simp
  | cons x xs ih =>
    intro st e k h
    rw [List.foldl_cons]
    have hx : embedRolesStep encode (st, e, k) x = (st, e, k + 1) := by
      dsimp only [embedRolesStep]
      rw [if_pos (h x (List.mem_cons_self x xs))]
    rw [hx, ih st e (k + 1) (fun r hr => h r (List.mem_cons_of_mem x hr)),
      List.length_cons, show k + (xs.length + 1) = k + 1 + xs.length from by omega]

/-- A negative existence check means the name is absent from the store. -/
theorem hasRow_false_not_mem {st : List StoredEmbedding} {n : String}
    (h : hasRow st n = false) : n ∉ st.map (fun row => row.role_name) := by
  intro hmem
  rw [List.mem_map] at hmem
  obtain ⟨row, hm, hn⟩ := hmem
  have ht : hasRow st n = true := (hasRow_iff st n).mpr ⟨row, hm, hn⟩
  rw [h] at ht
  exact Bool.false_ne_true ht

/-- One loop iteration preserves uniqueness of stored `role_name`s, because the
insert happens only after the existence check failed. -/
theorem embedRolesStep_nodup (encode : String → List ℚ)
    (acc : List StoredEmbedding × ℕ × ℕ) (role : Role)
    (h : (acc.1.map (fun row => row.role_name)).Nodup) :
    ((embedRolesStep encode acc role).1.map (fun row => row.role_name)).Nodup := by
  obtain ⟨st, e, k⟩ := acc
  dsimp only [embedRolesStep]
  split_ifs with hc
  · exact h
  · rw [List.map_append, List.nodup_append]
    refine ⟨h, List.nodup_singleton _, ?_⟩
    intro a ha hb
    have hb' : a = role.role_name := by simpa using hb
    subst hb'
    exact hasRow_false_not_mem (by simpa using hc) ha

/-- The loop preserves uniqueness of stored `role_name`s. -/
theorem embedRoles_foldl_nodup (encode : String → List ℚ) (rs : List Role) :
    ∀ (st : List StoredEmbedding) (e k : ℕ),
      (st.map (fun row => row.role_name)).Nodup →
      ((rs.foldl (embedRolesStep encode) (st, e, k)).1.map
        (fun row => row.role_name)).Nodup := by
  induction rs with
  | nil => intro st e k h; exact h
  | cons x xs ih =>
    intro st e k h
    rw [List.foldl_cons]
    rcases hstep : embedRolesStep encode (st, e, k) x with ⟨st', e', k'⟩
    apply ih
    have hn := embedRolesStep_nodup encode (st, e, k) x h
    rw [hstep] at hn
    exact hn

/-- Claim C4: running `embed_roles` a second time on an unchanged catalogue
returns the store of the first run unchanged (the exact `role_name` existence
check precedes any embedding call, so every role is skipped: embedded count 0,
skipped count `len(roles)`), and the store after the first run holds exactly
one row per `role_name` with a row for every catalogue role. -/
theorem claim_C4_reindex_idempotent (encode : String → List ℚ)
    (roles : List Role) (store : List StoredEmbedding)
    (hnodup : (store.map (fun row => row.role_name)).Nodup) :
    embedRoles encode roles (embedRoles encode roles store).1 =
      ((embedRoles encode roles store).1, 0, roles.length) ∧
    ((embedRoles encode roles store).1.map (fun row => row.role_name)).Nodup ∧
    (∀ role ∈ roles, hasRow (embedRoles encode roles store).1 role.role_name = true) := by
  have hpresent : ∀ role ∈ roles,
      hasRow (embedRoles encode roles store).1 role.role_name = true :=
    fun r hr => embedRoles_present encode roles store 0 0 r hr
  refine ⟨?_, ?_, hpresent⟩
  · have hs := embedRoles_skip_run encode roles (embedRoles encode roles store).1 0 0
      hpresent
    unfold embedRoles
    simpa using hs
  · exact embedRoles_foldl_nodup encode roles store 0 0 hnodup

/-- Witness for Claim C4 on a two-role catalogue over an empty store. -/
theorem claim_C4_witness :
    ((([] : List StoredEmbedding)).map (fun row => row.role_name)).Nodup ∧
    (embedRoles (fun _ => ([] : List ℚ)) [dataAnalystRole, juniorDevRole]
        (embedRoles (fun _ => ([] : List ℚ)) [dataAnalystRole, juniorDevRole] []).1 =
      ((embedRoles (fun _ => ([] : List ℚ)) [dataAnalystRole, juniorDevRole] []).1, 0,
        ([dataAnalystRole, juniorDevRole] : List Role).length) ∧
    ((embedRoles (fun _ => ([] : List ℚ)) [dataAnalystRole, juniorDevRole] []).1.map
      (fun row => row.role_name)).Nodup ∧
    (∀ role ∈ ([dataAnalystRole, juniorDevRole] : List Role),
      hasRow (embedRoles (fun _ => ([] : List ℚ)) [dataAnalystRole, juniorDevRole] []).1
        role.role_name = true)) :=
  ⟨by decide, claim_C4_reindex_idempotent (fun _ => ([] : List ℚ))
    [dataAnalystRole, juniorDevRole] [] (by decide)⟩
